import Mathlib

/-!
# Verification of the gremlin spectral ray tracer core

Shallow embedding, in Lean 4, of the parts of the `gremlin` renderer that the
checked claims are about: the vector/unit-vector algebra (`pkg/geo/vector.go`,
`pkg/geo/unit.go`), the look-at transform (`pkg/geo/transform.go`), the
RGB colorspace conversion (`pkg/colorspace/rgb.go`), the spectral distribution
grid (`pkg/spectrum/discrete.go`, `pkg/spectrum/sampled.go`), sphere
intersection and the stable quadratic solver (`shape` and `util` packages),
and the film / tiled-renderer merge path (`pkg/camera/film.go`,
`pkg/render/render.go`, `util.Partition`).

Modelling conventions:

* Go `float64` values are modelled as exact rationals `ℚ` (the real-number
  model of floating point arithmetic).  Where a float operation can produce a
  non-finite value that matters to a claim, that is modelled explicitly:
  `recipIsInf` models `math.IsInf(1/x, 0)` (true exactly when `x = 0` in the
  real-number model), and `floatRecip` returns `Option ℚ` with `none` standing
  for the non-finite (`Inf`/`NaN`) result of `1/0`, which poisons every
  downstream arithmetic operation.
* Go `math.Sqrt` is modelled by `Rat.sqrt`, which agrees with the exact square
  root at every perfect square; every discriminant and squared length this
  development evaluates `sqrt` at is a perfect square, so the model is exact
  on all evaluated paths.
* Go arrays indexed by provably in-bounds indices are modelled as total
  functions `ℕ → ℚ` (out-of-bounds access would panic in Go and never happens
  on the executed paths), or as `List`s where length matters.
-/

namespace Gremlin

/-! ## geo.Vec (src/pkg/geo/vector.go) -/

/-- 3D vector with rational ("real-valued") components.  Source: `geo.Vec`. -/
structure Vec where
  x : ℚ
  y : ℚ
  z : ℚ
deriving DecidableEq, Repr

/-- `geo.Unit` is a typedef of `geo.Vec` (src/pkg/geo/unit.go). -/
abbrev Unit' := Vec

namespace Vec

/-- Source: `Vec.Plus`. -/
def plus (a b : Vec) : Vec := ⟨a.x + b.x, a.y + b.y, a.z + b.z⟩

/-- Source: `Vec.Minus`. -/
def minus (a b : Vec) : Vec := ⟨a.x - b.x, a.y - b.y, a.z - b.z⟩

/-- Source: `Vec.Scale`. -/
def scale (a : Vec) (t : ℚ) : Vec := ⟨t * a.x, t * a.y, t * a.z⟩

/-- Source: `Vec.Dot` (the global `DotCount` metrics counter has no effect on
the returned value and is not modelled). -/
def dot (a b : Vec) : ℚ := a.x * b.x + a.y * b.y + a.z * b.z

/-- Source: `Vec.Cross` (the `CrossCount` counter is likewise dropped). -/
def cross (a b : Vec) : Vec :=
  ⟨a.y * b.z - a.z * b.y, a.z * b.x - a.x * b.z, a.x * b.y - a.y * b.x⟩

/-- Source: `Vec.LenSquared`. -/
def lenSquared (a : Vec) : ℚ := a.x * a.x + a.y * a.y + a.z * a.z

/-- Source: `Vec.Len`, i.e. `math.Sqrt(x*x + y*y + z*z)`.  `Rat.sqrt` is the
exact square root on perfect squares, which covers every length this
development computes. -/
def len (a : Vec) : ℚ := Rat.sqrt a.lenSquared

end Vec

/-- Model of Go `math.IsInf(1/x, 0)`: in the real-number model of `float64`
arithmetic, the reciprocal `1/x` is infinite exactly when `x = 0`.
(Go additionally overflows `1/x` to `+Inf` for subnormal `x` below about
`5.6e-309`; the real-number model identifies that regime with `x = 0`.) -/
def recipIsInf (x : ℚ) : Bool := x == 0

/-- Source: `Vec.Unit` (src/pkg/geo/vector.go:73-77):

```go
func (a Vec) Unit() (Unit, bool) {
    n := 1.0 / a.Len()
    return Unit{n * a.X, n * a.Y, n * a.Z}, math.IsInf(n, 0)
}
```

The returned flag is `math.IsInf(n, 0)` with `n = 1/len`, so it is `true`
exactly on zero-length input (where the float components would be `NaN`/`Inf`;
in the rational model `1/0 = 0` makes them `0` — degenerate either way) and
`false` on every vector of positive length. -/
def Vec.unit (a : Vec) : Unit' × Bool :=
  let n : ℚ := 1 / a.len
  (⟨n * a.x, n * a.y, n * a.z⟩, recipIsInf a.len)

end Gremlin

namespace Gremlin

/-! ## colorspace.RGB (src/pkg/colorspace/rgb.go) -/

/-- Source: `colorspace.RGB`, a struct holding the 3×3 primaries matrix `m`
and the per-channel gamma curve `gamma func(float64) float64` (a function
field, so any matrix/gamma pair is a valid colorspace value). -/
structure RGBcs where
  m : Fin 3 → Fin 3 → ℚ
  gamma : ℚ → ℚ

/-!
Source: `RGB.ConvertXYZ` (src/pkg/colorspace/rgb.go:46-73).

```go
rgb := [3]float64{}
for i := 0; i < 3; i++ {
    for j := 0; j < 3; j++ { rgb[i] += cs.m[i][j] * xyz[j] }
    rgb[i] = cs.gamma(rgb[i])
}
// if out of gamut, desaturate
min := math.Min(rgb[0], math.Min(rgb[1], rgb[2]))
if min < 0 { for i := range rgb { rgb[i] += min } }
// clamp max value
max := math.Max(rgb[0], math.Max(rgb[1], rgb[2]))
if max > 1 { for i, v := range rgb { rgb[i] = v / max } }
```

Note the desaturation step adds `min` itself (a negative number) to every
channel, not its magnitude `-min`.  The three phases of that function are
modelled by `RGBcs.linGamma`, `desaturate` and `clampMax` below, and
`RGBcs.ConvertXYZ` is their composition.
-/

/-- The accumulation loop `for j { rgb[i] += cs.m[i][j] * xyz[j] }` followed by
`rgb[i] = cs.gamma(rgb[i])`. -/
def RGBcs.linGamma (cs : RGBcs) (xyz : Fin 3 → ℚ) : Fin 3 → ℚ := fun i =>
  cs.gamma (0 + cs.m i 0 * xyz 0 + cs.m i 1 * xyz 1 + cs.m i 2 * xyz 2)

/-- The "if out of gamut, desaturate" step:
`min := Min(rgb[0], Min(rgb[1], rgb[2])); if min < 0 { rgb[i] += min }`. -/
def desaturate (rgb : Fin 3 → ℚ) : Fin 3 → ℚ :=
  let mn := min (rgb 0) (min (rgb 1) (rgb 2))
  if mn < 0 then fun i => rgb i + mn else rgb

/-- The "clamp max value" step:
`max := Max(rgb[0], Max(rgb[1], rgb[2])); if max > 1 { rgb[i] = v / max }`. -/
def clampMax (rgb : Fin 3 → ℚ) : Fin 3 → ℚ :=
  let mx := max (rgb 0) (max (rgb 1) (rgb 2))
  if mx > 1 then fun i => rgb i / mx else rgb

def RGBcs.ConvertXYZ (cs : RGBcs) (xyz : Fin 3 → ℚ) : Fin 3 → ℚ :=
  clampMax (desaturate (cs.linGamma xyz))

/-- A concrete `RGB` colorspace value with the identity primaries matrix and
identity gamma, used to evaluate `ConvertXYZ` at explicit inputs (the Go
struct accepts any such pair). -/
def idCS : RGBcs :=
  ⟨![![1, 0, 0], ![0, 1, 0], ![0, 0, 1]], fun v => v⟩

/-! ## geo.LookAt (src/pkg/geo/transform.go) -/

/-- Source: `Unit.Cross` (src/pkg/geo/unit.go:32-35):
`return Vec(u).Cross(Vec(v)).Unit()` — the boolean reports the degenerate
(zero cross product) case. -/
def Unit'.cross (u v : Unit') : Unit' × Bool := (Vec.cross u v).unit

/-- Source: `LookAt` (src/pkg/geo/transform.go:66-76):

```go
func LookAt(from, to Vec, up Unit) *Matrix {
    zaxis, _ := from.Minus(to).Unit()
    xaxis, _ := up.Cross(zaxis)
    yaxis, _ := zaxis.Cross(xaxis)
    return &Matrix{ ... }
}
```

Both degeneracy flags are discarded (`_`), exactly as in the source; the
function is total and always returns a matrix. -/
def LookAt (frm tgt : Vec) (up : Unit') : Matrix (Fin 4) (Fin 4) ℚ :=
  let zaxis := (frm.minus tgt).unit.1
  let xaxis := (Unit'.cross up zaxis).1
  let yaxis := (Unit'.cross zaxis xaxis).1
  !![xaxis.x, yaxis.x, zaxis.x, frm.x;
     xaxis.y, yaxis.y, zaxis.y, frm.y;
     xaxis.z, yaxis.z, zaxis.z, frm.z;
     0, 0, 0, 1]

/-! ## camera.Film pixels and Image (src/pkg/camera/film.go) -/

/-- Source: `camera.Pixel` — running tristimulus sum plus sample count. -/
structure Pixel where
  color : Fin 3 → ℚ
  samples : ℕ

/-- Model of the `float64` reciprocal `1 / x`: `none` models the non-finite
result (`+Inf`) produced when `x = 0`.  A non-finite value entering the pixel
pipeline yields `Inf`/`NaN` in every later arithmetic step (scaling, matrix
multiply, gamma), so the poisoned computation is propagated as `none`. -/
def floatRecip (x : ℚ) : Option ℚ := if x = 0 then none else some (1 / x)

/-- Source: the per-pixel body of `Film.Image` (src/pkg/camera/film.go:104-121)
up to the RGB conversion:

```go
n := 1 / float64(px.Samples)
xyz := px.Color.Scale(n)
rgb := cs.ConvertXYZ(xyz)
```

There is no branch on `px.Samples == 0`: the reciprocal is taken
unconditionally, so a zero-sample pixel feeds `+Inf`/`NaN` tristimulus values
into the conversion (modelled by `none`). -/
def Film.imagePixel (cs : RGBcs) (px : Pixel) : Option (Fin 3 → ℚ) :=
  (floatRecip (px.samples : ℚ)).map fun n => cs.ConvertXYZ (fun i => n * px.color i)

/-! ## camera.Film raster coordinate maps (src/pkg/camera/film.go) -/

/-- Source: `Film.RasterCoords` (src/pkg/camera/film.go:78-82):
`x = pxIdx % f.Width; y = pxIdx / f.Width`.  Go `int` arithmetic agrees with
`ℕ` here since width and index are non-negative in every use. -/
def RasterCoords (width idx : ℕ) : ℕ × ℕ := (idx % width, idx / width)

/-- Source: the index computed by `Film.PixelAt` (src/pkg/camera/film.go:87-90):
`pxIdx := x*f.Width + y`. -/
def PixelAtIdx (width x y : ℕ) : ℕ := x * width + y

/-! ## util.SolveQuadratic and shape.Sphere (src/unnamed/part_009, part_003) -/

/-- Source: `util.Sign` — `-1` for negative, `1` for positive, `0` at zero. -/
def Sign (n : ℚ) : ℚ := if n < 0 then -1 else if n > 0 then 1 else 0

/-- Source: `util.SolveQuadratic` (src/unnamed/part_009:11-29):

```go
disc := b*b - 4*a*c
if disc < 0 { return -1, -1, false }
if disc == 0 { return -b / (2 * a), -b / (2 * a), true }
q := -0.5 * (b + Sign(b)*math.Sqrt(disc))
r0, r1 := q/a, c/q
if r1 < r0 { r0, r1 = r1, r0 }
return r0, r1, true
```

Both discriminants evaluated in this development (`4` and `-96`) make
`Rat.sqrt` exact. -/
def SolveQuadratic (a b c : ℚ) : ℚ × ℚ × Bool :=
  let disc := b * b - 4 * a * c
  if disc < 0 then (-1, -1, false)
  else if disc = 0 then (-b / (2 * a), -b / (2 * a), true)
  else
    let q := -(1/2) * (b + Sign b * Rat.sqrt disc)
    let r0 := q / a
    let r1 := c / q
    if r1 < r0 then (r1, r0, true) else (r0, r1, true)

/-- Source: `geo.Ray` — origin plus direction (the direction is a `geo.Unit`,
a typedef of the vector type). -/
structure Ray where
  origin : Vec
  dir : Vec

/-- Source: `shape.Sphere`. -/
structure Sphere where
  center : Vec
  radius : ℚ

/-- Source: `Sphere.Intersect` (src/unnamed/part_003:58-74):

```go
L := ray.Origin.Minus(s.Center)
a := ray.Dir.LenSquared()
b := 2 * L.Dot(geo.Vec(ray.Dir))
c := L.Dot(L) - s.Radius*s.Radius
t0, t1, found := util.SolveQuadratic(a, b, c)
if !found { return -1.0 }
if t0 < 0 { return t1 }
return t0
```
-/
def Sphere.Intersect (s : Sphere) (ray : Ray) : ℚ :=
  let l := ray.origin.minus s.center
  let a := ray.dir.lenSquared
  let b := 2 * l.dot ray.dir
  let c := l.dot l - s.radius * s.radius
  match SolveQuadratic a b c with
  | (t0, t1, found) => if !found then -1 else if t0 < 0 then t1 else t0

/-! ## spectrum.Discrete and spectrum.Sampled
(src/pkg/spectrum/discrete.go, src/pkg/spectrum/sampled.go) -/

/-- Source: `DiscreteSize` / `NumSamples` = `(780-380)/5 + 1` = 81. -/
def NumSamples : ℕ := (780 - 380) / 5 + 1

/-- The fixed wavelength grid both representations sample: `380 + 5·i`.
Source: `_discreteWavelengths` / `sampledWavelengths`. -/
def gridWavelength (i : ℕ) : ℚ := 380 + 5 * i

/-- Linear-scan core of `sort.Search`: first index `≥ start` (within `fuel`
further candidates) at which `f` holds, else `start + fuel`. -/
def sortSearchAux (f : ℕ → Bool) : ℕ → ℕ → ℕ
  | 0, start => start
  | fuel + 1, start => if f start then start else sortSearchAux f fuel (start + 1)

/-- Model of Go `sort.Search(n, f)`: for the monotone predicates used here its
documented contract is the smallest `i` in `[0, n)` with `f i`, or `n` when
there is none; only the binary-search strategy (performance) is not
modelled. -/
def sortSearch (n : ℕ) (f : ℕ → Bool) : ℕ := sortSearchAux f n 0

/-- A `Discrete`/`Sampled` distribution is an `[81]float64`; modelled as a
total function (Go indexing panics out of bounds; every access below is
provably within `[0, 81)`). -/
abbrev Spec81 := ℕ → ℚ

/-- Source: `Discrete.Lookup` (src/pkg/spectrum/discrete.go:36-45):

```go
if wavelength <= discWavelengthMin { return d[0] }
idx := sort.Search(len(DiscreteWavelengths), func(i int) bool {
    return DiscreteWavelengths[i] > wavelength
})
return d[idx-1]
```
-/
def Discrete.Lookup (d : Spec81) (wavelength : ℚ) : ℚ :=
  if wavelength ≤ 380 then d 0
  else d (sortSearch NumSamples (fun i => gridWavelength i > wavelength) - 1)

/-- Source: `Discrete.Lerp` (src/pkg/spectrum/discrete.go:48-55):
`s := 1 - t; lerp[i] = d[i]*s + other[i]*t`. -/
def Discrete.Lerp (d other : Spec81) (t : ℚ) : Spec81 :=
  fun i => d i * (1 - t) + other i * t

/-- Source: `Sampled.Lookup` (src/pkg/spectrum/sampled.go:57-64):

```go
if wavelength < SampledMin || wavelength > SampledMax { return 0 }
idx := sort.SearchFloat64s(sampledWavelengths, wavelength)
return s[idx]
```

(`sort.SearchFloat64s(a, x)` is `sort.Search` with predicate `a[i] >= x`.) -/
def Sampled.Lookup (s : Spec81) (wavelength : ℚ) : ℚ :=
  if wavelength < 380 ∨ wavelength > 780 then 0
  else s (sortSearch NumSamples (fun i => gridWavelength i ≥ wavelength))

/-- Source: `Sampled.Lerp` (src/pkg/spectrum/sampled.go:82-89):
`m := 1 - n; lerp[i] = v*n + t[i]*m` with `v = s[i]` — the receiver is
weighted by `n` and the argument by `1 - n`. -/
def Sampled.Lerp (s t : Spec81) (n : ℚ) : Spec81 :=
  fun i => s i * n + t i * (1 - n)

/-- Concrete distribution used to evaluate the lookup/lerp claims:
value `1` at grid index 0 (380nm) and `2` at every later index. -/
def dStep : Spec81 := fun i => if i = 0 then 1 else 2

/-- The zero distribution. -/
def zeroSpec : Spec81 := fun _ => 0

/-- The spec's linear-interpolation combinator, written from the spec's words
(`lerp(a,b,t) = a·(1−t) + b·t`, componentwise over the grid): a separate
definition to compare the two source implementations against. -/
def lerpSpec (a b : Spec81) (t : ℚ) : Spec81 :=
  fun i => a i * (1 - t) + b i * t

/-! ## camera.Film.Merge and the tiled renderer
(src/pkg/camera/film.go, src/pkg/render/render.go, src/unnamed/part_009) -/

/-- The zero-valued `camera.Pixel` (`make([]Pixel, n)` zero-initializes; also
the `getD` default for the always-in-bounds slice reads below). -/
def defaultPixel : Pixel := ⟨fun _ => 0, 0⟩

/-- One iteration of the `Film.Merge` loop at film index `offset+idx`: the
tile pixel's color *replaces* the film pixel's color, and the tile pixel's
samples are *added* to the film pixel's samples:

```go
f.Pixels[filmIdx].Color[0] = pixels[idx].Color[0]   // likewise [1], [2]
f.Pixels[filmIdx].Samples += pixels[idx].Samples
```
-/
def mergePixel (tilePx filmPx : Pixel) : Pixel :=
  ⟨tilePx.color, filmPx.samples + tilePx.samples⟩

/-- The `Film.Merge` loop unrolled from the low end: `mergeLoop offset pixels n`
performs the iterations `idx = 0, …, n-1` (the `n+1` case runs the first `n`
iterations, then iteration `idx = n`). -/
def Film.mergeLoop (offset : ℕ) (pixels : List Pixel) : ℕ → List Pixel → List Pixel
  | 0, film => film
  | n + 1, film =>
    (Film.mergeLoop offset pixels n film).set (offset + n)
      (mergePixel (pixels.getD n defaultPixel)
        ((Film.mergeLoop offset pixels n film).getD (offset + n) defaultPixel))

/-- Source: `Film.Merge` (src/pkg/camera/film.go:94-102):

```go
for idx := range pixels {
    filmIdx := offset + idx
    f.Pixels[filmIdx].Color[c] = pixels[idx].Color[c]   // c = 0, 1, 2
    f.Pixels[filmIdx].Samples += pixels[idx].Samples
}
```

The film buffer is a `List Pixel`; `set`/`getD` model the slice accesses.
(In Go an out-of-range index panics; every theorem below keeps the writes in
bounds, where `set`/`getD` agree with slice semantics.) -/
def Film.merge (film : List Pixel) (offset : ℕ) (pixels : List Pixel) : List Pixel :=
  Film.mergeLoop offset pixels pixels.length film

/-- Source: `util.Bin` — offset and size of one partition tile. -/
structure Bin where
  offset : ℕ
  size : ℕ
deriving DecidableEq, Repr

/-- Source: `util.Partition` (src/unnamed/part_009:102-115), the loop written
as recursion on `elems`:

```go
offset := 0
for ; size < elems; elems, offset = elems-size, offset+size {
    bins = append(bins, Bin{offset, size})
}
if elems > 0 { bins = append(bins, Bin{offset, elems}) }
```

For `size = 0` and `0 < elems` the Go loop does not terminate; the model is
used, and its properties proved, only for `0 < size`, where it agrees with
the loop exactly. -/
def Partition.go (size : ℕ) (elems offset : ℕ) : List Bin :=
  if h : 0 < size ∧ size < elems then
    ⟨offset, size⟩ :: Partition.go size (elems - size) (offset + size)
  else if 0 < elems then [⟨offset, elems⟩] else []
termination_by elems
decreasing_by omega

/-- Source: `util.Partition(elems, size)`. -/
def Partition (elems size : ℕ) : List Bin := Partition.go size elems 0

/-- The tile buffer the `Fixed` goroutine produces for tile `b` under a fixed
assignment `f` of per-pixel contributions (the claim's premise: the same
sample sequence delivered to each pixel): pixel `i` of the tile accumulates
the contribution of film pixel `b.offset + i`
(src/pkg/render/render.go:109-118). -/
def renderTilePure (f : ℕ → Pixel) (b : Bin) : List Pixel :=
  (List.range b.size).map fun i => f (b.offset + i)

/-- The merge loop of `Fixed` (src/pkg/render/render.go:126-128): completed
tiles arrive from the channel in an arbitrary order — modelled as any
permutation of the partition — and are merged sequentially into the film. -/
def mergeTiles (f : ℕ → Pixel) (film : List Pixel) (tiles : List Bin) : List Pixel :=
  tiles.foldl (fun acc b => Film.merge acc b.offset (renderTilePure f b)) film

/-- Source: `NewFilm` — `make([]Pixel, width*height)`, zero-valued pixels. -/
def initFilm (n : ℕ) : List Pixel := List.replicate n defaultPixel

/-- Two bins' index ranges are disjoint (symmetric form). -/
def Bin.Disjoint (b1 b2 : Bin) : Prop :=
  b1.offset + b1.size ≤ b2.offset ∨ b2.offset + b2.size ≤ b1.offset

/-- Bin `b` covers film index `i`. -/
def Bin.covers (b : Bin) (i : ℕ) : Prop :=
  b.offset ≤ i ∧ i < b.offset + b.size

/-- Concrete film, tile and contribution assignment used to witness the
merge/render theorems. -/
def filmW : List Pixel := [⟨fun _ => 1, 1⟩, ⟨fun _ => 2, 2⟩, ⟨fun _ => 3, 3⟩]

def tileW : List Pixel := [⟨fun _ => 9, 5⟩]

def fW : ℕ → Pixel := fun i => ⟨fun _ => (i : ℚ), i⟩

/-! ## Theorems -/

/-- `sortSearchAux` when the predicate fails on every candidate. -/
theorem sortSearchAux_notFound (f : ℕ → Bool) :
    ∀ fuel start, (∀ j, j < fuel → f (start + j) = false) →
      sortSearchAux f fuel start = start + fuel := by
  intro fuel
  induction fuel with
  | zero => intro start _; simp [sortSearchAux]
  | succ n ih =>
    intro start h
    have h0 : f start = false := by simpa using h 0 (Nat.succ_pos n)
    rw [sortSearchAux, h0]
    simp only [Bool.false_eq_true, if_false]
    rw [ih (start + 1) fun j hj => by
      have := h (j + 1) (by omega)
      simpa [Nat.add_assoc, Nat.add_comm 1 j] using this]
    omega

/-- `sortSearchAux` finds the first index at which the predicate holds. -/
theorem sortSearchAux_found (f : ℕ → Bool) :
    ∀ fuel start k, k < fuel → (∀ j, j < k → f (start + j) = false) →
      f (start + k) = true → sortSearchAux f fuel start = start + k := by
  intro fuel
  induction fuel with
  | zero => intro start k hk; omega
  | succ n ih =>
    intro start k hk hbelow hit
    match k with
    | 0 =>
      have hit' : f start = true := by simpa using hit
      rw [sortSearchAux, hit']
      simp
    | k + 1 =>
      have h0 : f start = false := by simpa using hbelow 0 (Nat.succ_pos k)
      rw [sortSearchAux, h0]
      simp only [Bool.false_eq_true, if_false]
      have := ih (start + 1) k (by omega)
        (fun j hj => by
          have := hbelow (j + 1) (by omega)
          simpa [Nat.add_assoc, Nat.add_comm 1 j] using this)
        (by simpa [Nat.add_assoc, Nat.add_comm 1 k] using hit)
      rw [this]
      omega

/-- `sort.Search` contract, "found" case: least index wins. -/
theorem sortSearch_eq (n : ℕ) (f : ℕ → Bool) (k : ℕ) (hk : k < n)
    (hbelow : ∀ j, j < k → f j = false) (hit : f k = true) :
    sortSearch n f = k := by
  have := sortSearchAux_found f n 0 k hk (by simpa using hbelow) (by simpa using hit)
  simpa [sortSearch] using this

/-- `sort.Search` contract, "not found" case: returns `n`. -/
theorem sortSearch_none (n : ℕ) (f : ℕ → Bool)
    (h : ∀ j, j < n → f j = false) : sortSearch n f = n := by
  have := sortSearchAux_notFound f n 0 (by simpa using h)
  simpa [sortSearch] using this

/-- The wavelength grid is monotone. -/
theorem gridWavelength_mono {j k : ℕ} (h : j ≤ k) :
    gridWavelength j ≤ gridWavelength k := by
  unfold gridWavelength
  have : (j : ℚ) ≤ k := by exact_mod_cast h
  linarith

/-- Grid values up to index 80 stay at or below 780. -/
theorem gridWavelength_le_780 {j : ℕ} (h : j ≤ 80) : gridWavelength j ≤ 780 := by
  have hm := gridWavelength_mono h
  have h80 : gridWavelength 80 = 780 := by norm_num [gridWavelength]
  rw [h80] at hm
  exact hm

/-- Grid values are at least 380. -/
theorem gridWavelength_ge_380 (j : ℕ) : 380 ≤ gridWavelength j := by
  unfold gridWavelength
  have hj : (0 : ℚ) ≤ (j : ℚ) := Nat.cast_nonneg j
  linarith

theorem NumSamples_eq : NumSamples = 81 := by norm_num [NumSamples]

/-- `Discrete.Lookup` below the grid clamps to the first sample. -/
theorem discreteLookup_low (d : Spec81) (lam : ℚ) (h : lam ≤ 380) :
    Discrete.Lookup d lam = d 0 := by
  rw [Discrete.Lookup, if_pos h]

/-- `Discrete.Lookup` above the grid clamps to the last sample. -/
theorem discreteLookup_high (d : Spec81) (lam : ℚ) (h : 780 < lam) :
    Discrete.Lookup d lam = d 80 := by
  rw [Discrete.Lookup, if_neg (by linarith)]
  rw [sortSearch_none _ _ fun j hj => by
    rw [NumSamples_eq] at hj
    have hle := gridWavelength_le_780 (j := j) (by omega)
    simp only [decide_eq_false_iff_not, not_lt]
    linarith]
  rw [NumSamples_eq]

/-- `Discrete.Lookup` inside the grid returns the nearest sample at or
*below* the wavelength (a floor, not a ceiling). -/
theorem discreteLookup_interior (d : Spec81) (k : ℕ) (lam : ℚ) (hk : k < 80)
    (h380 : 380 < lam) (hlo : gridWavelength k ≤ lam)
    (hhi : lam < gridWavelength (k + 1)) :
    Discrete.Lookup d lam = d k := by
  rw [Discrete.Lookup, if_neg (by linarith)]
  rw [sortSearch_eq NumSamples _ (k + 1) (by rw [NumSamples_eq]; omega)
    (fun j hj => by
      have hm := gridWavelength_mono (j := j) (k := k) (by omega)
      simp only [decide_eq_false_iff_not, not_lt]
      linarith)
    (by simp only [decide_eq_true_eq]; exact hhi)]
  simp

/-- `Sampled.Lookup` below the grid returns zero. -/
theorem sampledLookup_low (s : Spec81) (lam : ℚ) (h : lam < 380) :
    Sampled.Lookup s lam = 0 := by
  rw [Sampled.Lookup, if_pos (Or.inl h)]

/-- `Sampled.Lookup` above the grid returns zero. -/
theorem sampledLookup_high (s : Spec81) (lam : ℚ) (h : 780 < lam) :
    Sampled.Lookup s lam = 0 := by
  rw [Sampled.Lookup, if_pos (Or.inr h)]

/-- `Sampled.Lookup` inside the grid returns the nearest sample at or *above*
the wavelength. -/
theorem sampledLookup_interior (s : Spec81) (k : ℕ) (lam : ℚ) (hk : k < 80)
    (hlo : gridWavelength k < lam) (hhi : lam ≤ gridWavelength (k + 1)) :
    Sampled.Lookup s lam = s (k + 1) := by
  have hge := gridWavelength_ge_380 k
  have hle : gridWavelength (k + 1) ≤ 780 := gridWavelength_le_780 (by omega)
  rw [Sampled.Lookup, if_neg (by push_neg; constructor <;> linarith)]
  rw [sortSearch_eq NumSamples _ (k + 1) (by rw [NumSamples_eq]; omega)
    (fun j hj => by
      have hm := gridWavelength_mono (j := j) (k := k) (by omega)
      simp only [decide_eq_false_iff_not, not_le]
      linarith)
    (by simp only [decide_eq_true_eq]; exact hhi)]

/-- `Film.mergeLoop` preserves the buffer length. -/
theorem mergeLoop_length (offset : ℕ) (pixels : List Pixel) :
    ∀ (n : ℕ) (film : List Pixel),
      (Film.mergeLoop offset pixels n film).length = film.length := by
  intro n
  induction n with
  | zero => intro film; rfl
  | succ n ih =>
    intro film
    simp only [Film.mergeLoop, List.length_set]
    exact ih film

/-- Merge iterations `0, …, n-1` leave indices outside `[offset, offset+n)`
untouched. -/
theorem mergeLoop_getElem?_untouched (offset : ℕ) (pixels : List Pixel) :
    ∀ (n : ℕ) (film : List Pixel) (i : ℕ), i < offset ∨ offset + n ≤ i →
      (Film.mergeLoop offset pixels n film)[i]? = film[i]? := by
  intro n
  induction n with
  | zero => intro film i _; rfl
  | succ n ih =>
    intro film i hi
    simp only [Film.mergeLoop]
    rw [List.getElem?_set_ne (by omega)]
    exact ih film i (by omega)

/-- After merge iterations `0, …, n-1`, index `offset+k` with `k < n` holds
the tile pixel's color and the sum of the sample counts. -/
theorem mergeLoop_getElem?_touched (offset : ℕ) (pixels : List Pixel) :
    ∀ (n : ℕ) (film : List Pixel) (k : ℕ), k < n → offset + n ≤ film.length →
      (Film.mergeLoop offset pixels n film)[offset + k]? =
        some (mergePixel (pixels.getD k defaultPixel)
          (film.getD (offset + k) defaultPixel)) := by
  intro n
  induction n with
  | zero => intro film k hk _; omega
  | succ n ih =>
    intro film k hk hlen
    by_cases hkn : k = n
    · subst hkn
      simp only [Film.mergeLoop]
      rw [List.getElem?_set_eq_of_lt _ (by rw [mergeLoop_length]; omega)]
      congr 2
      rw [List.getD_eq_getElem?_getD,
        mergeLoop_getElem?_untouched offset pixels k film (offset + k)
          (Or.inr le_rfl),
        ← List.getD_eq_getElem?_getD]
    · simp only [Film.mergeLoop]
      rw [List.getElem?_set_ne (by omega)]
      exact ih film k (by omega) (by omega)

/-- `Film.merge` preserves the buffer length. -/
theorem merge_length (film : List Pixel) (offset : ℕ) (pixels : List Pixel) :
    (Film.merge film offset pixels).length = film.length :=
  mergeLoop_length offset pixels pixels.length film

/-- `Film.merge` leaves indices outside `[offset, offset + len(pixels))`
unchanged. -/
theorem merge_getElem?_untouched (film : List Pixel) (offset : ℕ)
    (pixels : List Pixel) (i : ℕ) (hi : i < offset ∨ offset + pixels.length ≤ i) :
    (Film.merge film offset pixels)[i]? = film[i]? :=
  mergeLoop_getElem?_untouched offset pixels pixels.length film i hi

/-- `Film.merge` writes `mergePixel` at every in-range index. -/
theorem merge_getElem?_touched (film : List Pixel) (offset : ℕ)
    (pixels : List Pixel) (k : ℕ) (hk : k < pixels.length)
    (hlen : offset + pixels.length ≤ film.length) :
    (Film.merge film offset pixels)[offset + k]? =
      some (mergePixel (pixels.getD k defaultPixel)
        (film.getD (offset + k) defaultPixel)) :=
  mergeLoop_getElem?_touched offset pixels pixels.length film k hk hlen

/-- `renderTilePure` produces a buffer of the tile's size. -/
theorem renderTilePure_length (f : ℕ → Pixel) (b : Bin) :
    (renderTilePure f b).length = b.size := by
  simp [renderTilePure]

/-- Entry `k` of a pure tile buffer is the contribution of film pixel
`b.offset + k`. -/
theorem renderTilePure_getD (f : ℕ → Pixel) (b : Bin) (k : ℕ) (hk : k < b.size) :
    (renderTilePure f b).getD k defaultPixel = f (b.offset + k) := by
  rw [List.getD_eq_getElem?_getD, renderTilePure]
  simp [List.getElem?_map, List.getElem?_range, hk]

/-- `mergeTiles` preserves the buffer length. -/
theorem mergeTiles_length (f : ℕ → Pixel) :
    ∀ (tiles : List Bin) (film : List Pixel),
      (mergeTiles f film tiles).length = film.length := by
  intro tiles
  induction tiles with
  | nil => intro film; rfl
  | cons b rest ih =>
    intro film
    show (mergeTiles f (Film.merge film b.offset (renderTilePure f b)) rest).length = _
    rw [ih, merge_length]

/-- A film index covered by no tile is untouched by the whole merge loop. -/
theorem mergeTiles_getElem?_uncovered (f : ℕ → Pixel) :
    ∀ (tiles : List Bin) (film : List Pixel) (i : ℕ),
      (∀ b ∈ tiles, ¬ b.covers i) →
      (mergeTiles f film tiles)[i]? = film[i]? := by
  intro tiles
  induction tiles with
  | nil => intro film i _; rfl
  | cons b rest ih =>
    intro film i h
    have hb := h b (List.mem_cons_self _ _)
    show (mergeTiles f (Film.merge film b.offset (renderTilePure f b)) rest)[i]? = _
    rw [ih _ i fun b' hb' => h b' (List.mem_cons_of_mem _ hb')]
    exact merge_getElem?_untouched film b.offset (renderTilePure f b) i (by
      rw [renderTilePure_length]
      unfold Bin.covers at hb
      omega)

/-- A film index covered by exactly one tile of a pairwise-disjoint tile list
ends up holding `mergePixel (f i)` of the original film pixel, independent of
the order the tiles arrive in. -/
theorem mergeTiles_getElem?_covered (f : ℕ → Pixel) :
    ∀ (tiles : List Bin) (film : List Pixel) (i : ℕ),
      tiles.Pairwise Bin.Disjoint →
      (∀ b ∈ tiles, b.offset + b.size ≤ film.length) →
      (∃ b ∈ tiles, b.covers i) →
      (mergeTiles f film tiles)[i]? =
        some (mergePixel (f i) (film.getD i defaultPixel)) := by
  intro tiles
  induction tiles with
  | nil =>
    intro film i _ _ hex
    rcases hex with ⟨b, hb, _⟩
    cases hb
  | cons b rest ih =>
    intro film i hpw hbd hex
    have hpw' := List.pairwise_cons.mp hpw
    by_cases hcov : b.covers i
    · show (mergeTiles f (Film.merge film b.offset (renderTilePure f b)) rest)[i]? = _
      rw [mergeTiles_getElem?_uncovered f rest _ i fun b' hb' => by
        have hd := hpw'.1 b' hb'
        unfold Bin.Disjoint at hd
        unfold Bin.covers at hcov ⊢
        omega]
      obtain ⟨hin1, hin2⟩ := hcov
      have ht := merge_getElem?_touched film b.offset (renderTilePure f b)
        (i - b.offset)
        (by rw [renderTilePure_length]; omega)
        (by rw [renderTilePure_length]; exact hbd b (List.mem_cons_self _ _))
      rw [renderTilePure_getD f b (i - b.offset) (by omega)] at ht
      rw [show b.offset + (i - b.offset) = i by omega] at ht
      exact ht
    · rcases hex with ⟨b', hb', hcov'⟩
      have hbrest : b' ∈ rest := by
        rcases List.mem_cons.mp hb' with h1 | h2
        · exact absurd (h1 ▸ hcov') hcov
        · exact h2
      show (mergeTiles f (Film.merge film b.offset (renderTilePure f b)) rest)[i]? = _
      rw [ih (Film.merge film b.offset (renderTilePure f b)) i hpw'.2
        (fun b'' hb'' => by
          rw [merge_length]
          exact hbd b'' (List.mem_cons_of_mem _ hb''))
        ⟨b', hbrest, hcov'⟩]
      congr 2
      rw [List.getD_eq_getElem?_getD,
        merge_getElem?_untouched film b.offset (renderTilePure f b) i (by
          rw [renderTilePure_length]
          unfold Bin.covers at hcov
          omega),
        ← List.getD_eq_getElem?_getD]

/-- The bins produced by `Partition.go` stay inside `[offset, offset+elems)`,
are pairwise disjoint, and cover every index of `[offset, offset+elems)`. -/
theorem Partition.go_props (size : ℕ) (hs : 0 < size) :
    ∀ elems offset : ℕ,
      (∀ b ∈ Partition.go size elems offset,
        offset ≤ b.offset ∧ b.offset + b.size ≤ offset + elems) ∧
      (Partition.go size elems offset).Pairwise Bin.Disjoint ∧
      (∀ i, offset ≤ i → i < offset + elems →
        ∃ b ∈ Partition.go size elems offset, b.covers i) := by
  intro elems
  induction elems using Nat.strong_induction_on with
  | _ elems ih =>
    intro offset
    by_cases h : size < elems
    · rw [Partition.go, dif_pos ⟨hs, h⟩]
      obtain ⟨ihb, ihp, ihc⟩ := ih (elems - size) (by omega) (offset + size)
      refine ⟨?_, ?_, ?_⟩
      · intro b hb
        rcases List.mem_cons.mp hb with rfl | hb'
        · exact ⟨le_rfl, show offset + size ≤ offset + elems by omega⟩
        · have := ihb b hb'
          exact ⟨by omega, by omega⟩
      · rw [List.pairwise_cons]
        refine ⟨fun b' hb' => ?_, ihp⟩
        have := ihb b' hb'
        exact Or.inl (show offset + size ≤ b'.offset by omega)
      · intro i hi1 hi2
        by_cases hi : i < offset + size
        · exact ⟨⟨offset, size⟩, List.mem_cons_self _ _, hi1, hi⟩
        · obtain ⟨b, hb, hc⟩ := ihc i (by omega) (by omega)
          exact ⟨b, List.mem_cons_of_mem _ hb, hc⟩
    · rw [Partition.go, dif_neg (by omega)]
      by_cases he : 0 < elems
      · rw [if_pos he]
        refine ⟨?_, List.pairwise_singleton _ _, ?_⟩
        · intro b hb
          rcases List.mem_singleton.mp hb with rfl
          exact ⟨le_rfl, le_rfl⟩
        · intro i h1 h2
          exact ⟨⟨offset, elems⟩, List.mem_singleton_self _, h1, h2⟩
      · rw [if_neg he]
        exact ⟨fun b hb => absurd hb (List.not_mem_nil b),
          List.Pairwise.nil, fun i h1 h2 => absurd h2 (by omega)⟩

/-- Pointwise description of merging any permutation of a partition's tiles
into the fresh film: pixel `i < n` holds exactly `mergePixel (f i)` of the
zero pixel, independent of tile size and merge order. -/
theorem mergeTiles_partition_getElem? (f : ℕ → Pixel) (n size : ℕ)
    (hs : 0 < size) (tiles : List Bin)
    (hperm : tiles.Perm (Partition n size)) (i : ℕ) :
    (mergeTiles f (initFilm n) tiles)[i]? =
      if i < n then some (mergePixel (f i) defaultPixel) else none := by
  obtain ⟨hb, hpw, hcov⟩ := Partition.go_props size hs n 0
  have hb' : ∀ b ∈ tiles, b.offset + b.size ≤ (initFilm n).length := by
    intro b hbm
    rw [initFilm, List.length_replicate]
    have := hb b (hperm.subset hbm)
    omega
  have hpw' : tiles.Pairwise Bin.Disjoint :=
    (hperm.pairwise_iff fun h => Or.symm h).mpr hpw
  by_cases hi : i < n
  · rw [if_pos hi]
    have hex : ∃ b ∈ tiles, b.covers i := by
      obtain ⟨b, hbm, hc⟩ := hcov i (by omega) (by omega)
      exact ⟨b, hperm.mem_iff.mpr hbm, hc⟩
    rw [mergeTiles_getElem?_covered f tiles (initFilm n) i hpw' hb' hex]
    congr 2
    rw [List.getD_eq_getElem?_getD, initFilm]
    simp [List.getElem?_replicate, hi]
  · rw [if_neg hi]
    exact List.getElem?_eq_none (by
      rw [mergeTiles_length, initFilm, List.length_replicate]
      omega)

/-- Evaluation helper: `Rat.sqrt` at a perfect square. -/
theorem ratSqrt_sq (r : ℚ) (h : 0 ≤ r) : Rat.sqrt (r * r) = r := by
  rw [Rat.sqrt_eq, abs_of_nonneg h]

theorem ratSqrt_25 : Rat.sqrt 25 = 5 := by
  rw [show (25 : ℚ) = 5 * 5 by norm_num, ratSqrt_sq 5 (by norm_num)]

/-- C1: the spec claims `Vec.Unit` returns a success flag that is `false`
exactly when the length is (near) zero and `true` for every vector of
non-negligible length.  The code computes the flag as `math.IsInf(1/len)`,
which has the opposite polarity: evaluating the embedded code shows the flag
is `false` on the length-5 vector `(3,4,0)` (the claim requires `true`) and
`true` on the zero vector (the claim requires `false`). -/
theorem C1_unit_flag_inverted :
    (Vec.unit ⟨3, 4, 0⟩).2 = false ∧ (Vec.unit ⟨0, 0, 0⟩).2 = true := by
  have h1 : Rat.sqrt ((3 : ℚ) * 3 + 4 * 4 + 0 * 0) = 5 := by
    rw [show (3 : ℚ) * 3 + 4 * 4 + 0 * 0 = 5 * 5 by norm_num,
      ratSqrt_sq 5 (by norm_num)]
  have h2 : Rat.sqrt ((0 : ℚ) * 0 + 0 * 0 + 0 * 0) = 0 := by
    rw [show (0 : ℚ) * 0 + 0 * 0 + 0 * 0 = 0 * 0 by norm_num,
      ratSqrt_sq 0 le_rfl]
  refine ⟨?_, ?_⟩
  · show recipIsInf (Vec.len ⟨3, 4, 0⟩) = false
    rw [show Vec.len ⟨3, 4, 0⟩ = 5 from h1]
    simp [recipIsInf]
  · show recipIsInf (Vec.len ⟨0, 0, 0⟩) = true
    rw [show Vec.len ⟨0, 0, 0⟩ = 0 from h2]
    simp [recipIsInf]

/-- C2: the spec claims that when a channel is negative after the linear and
gamma steps, all channels are shifted by adding the *magnitude* of the
most-negative channel, leaving no negative channel (minimum becomes zero).
The code instead adds the (negative) minimum itself: evaluating
`ConvertXYZ` with the identity matrix and identity gamma at `xyz = (-1,0,0)`
(post-gamma channels `(-1,0,0)`) yields `(-2,-1,-1)` — every channel became
more negative and the minimum is `-2`, not `0`. -/
theorem C2_desaturate_subtracts_magnitude :
    RGBcs.ConvertXYZ idCS ![-1, 0, 0] = ![-2, -1, -1] ∧
    RGBcs.ConvertXYZ idCS ![-1, 0, 0] 0 < 0 := by
  have h0 : RGBcs.linGamma idCS ![-1, 0, 0] = ![-1, 0, 0] := by
    funext i
    fin_cases i <;> norm_num [RGBcs.linGamma, idCS]
  have h1 : desaturate ![-1, 0, 0] = ![-2, -1, -1] := by
    have hm : min ((![-1, 0, 0] : Fin 3 → ℚ) 0)
        (min ((![-1, 0, 0] : Fin 3 → ℚ) 1) ((![-1, 0, 0] : Fin 3 → ℚ) 2)) =
        -1 := by norm_num
    funext i
    fin_cases i <;> simp only [desaturate, hm] <;> norm_num
  have h2 : clampMax ![-2, -1, -1] = ![-2, -1, -1] := by
    have hm : max ((![-2, -1, -1] : Fin 3 → ℚ) 0)
        (max ((![-2, -1, -1] : Fin 3 → ℚ) 1) ((![-2, -1, -1] : Fin 3 → ℚ) 2)) =
        -1 := by norm_num
    simp only [clampMax, hm]
    norm_num
  have h : RGBcs.ConvertXYZ idCS ![-1, 0, 0] = ![-2, -1, -1] := by
    rw [RGBcs.ConvertXYZ, h0, h1, h2]
  exact ⟨h, by rw [h]; norm_num⟩

/-- C3: the spec claims `ToImage` guards zero-sample pixels, producing black
(or a sentinel) rather than dividing by zero.  The code computes
`n := 1 / float64(px.Samples)` with no guard: at a pixel with
`Color = (1,1,1)` and `Samples = 0` the computation is poisoned by the
non-finite reciprocal (modelled by `none`) — in particular the pixel does
not come out black. -/
theorem C3_image_divides_by_zero_samples :
    Film.imagePixel idCS ⟨![1, 1, 1], 0⟩ = none ∧
    Film.imagePixel idCS ⟨![1, 1, 1], 0⟩ ≠ some (fun _ => 0) := by
  refine ⟨?_, ?_⟩ <;> simp [Film.imagePixel, floatRecip]

/-- C4: the spec claims `LookAt` must detect `up` parallel to `from - to` and
surface an error.  The code discards the degeneracy flags: with
`from = (0,0,0)`, `to = (0,0,-1)`, `up = (0,0,1)` (up parallel to from−to)
the cross product `up × zaxis` is the zero vector and its normalization
reports the degenerate flag `true`, yet `LookAt` ignores it and silently
returns a matrix whose first two columns are zero (in `float64` their entries
are `NaN`, since they are `±Inf · 0` products): no error reaches the caller. -/
theorem C4_lookAt_silent_on_parallel_up :
    (Unit'.cross ⟨0, 0, 1⟩ ((Vec.minus ⟨0, 0, 0⟩ ⟨0, 0, -1⟩).unit.1)).2 = true ∧
    LookAt ⟨0, 0, 0⟩ ⟨0, 0, -1⟩ ⟨0, 0, 1⟩ =
      !![0, 0, 0, 0;
         0, 0, 0, 0;
         0, 0, 1, 0;
         0, 0, 0, 1] := by
  have hmz : Vec.minus ⟨0, 0, 0⟩ ⟨0, 0, -1⟩ = ⟨0, 0, 1⟩ := by
    simp [Vec.minus]
  have s1 : Rat.sqrt ((0 : ℚ) * 0 + 0 * 0 + 1 * 1) = 1 := by
    rw [show (0 : ℚ) * 0 + 0 * 0 + 1 * 1 = 1 * 1 by norm_num,
      ratSqrt_sq 1 (by norm_num)]
  have s0 : Rat.sqrt ((0 : ℚ) * 0 + 0 * 0 + 0 * 0) = 0 := by
    rw [show (0 : ℚ) * 0 + 0 * 0 + 0 * 0 = 0 * 0 by norm_num,
      ratSqrt_sq 0 le_rfl]
  have hu1 : Vec.unit ⟨0, 0, 1⟩ = (⟨0, 0, 1⟩, false) := by
    unfold Vec.unit Vec.len Vec.lenSquared recipIsInf
    rw [s1]
    norm_num
  have hu0 : Vec.unit ⟨0, 0, 0⟩ = (⟨0, 0, 0⟩, true) := by
    unfold Vec.unit Vec.len Vec.lenSquared recipIsInf
    rw [s0]
    norm_num
  have hc1 : Vec.cross ⟨0, 0, 1⟩ ⟨0, 0, 1⟩ = ⟨0, 0, 0⟩ := by
    simp [Vec.cross]
  have hc0 : Vec.cross ⟨0, 0, 1⟩ ⟨0, 0, 0⟩ = ⟨0, 0, 0⟩ := by
    simp [Vec.cross]
  have hx : Unit'.cross ⟨0, 0, 1⟩ ⟨0, 0, 1⟩ = (⟨0, 0, 0⟩, true) := by
    rw [Unit'.cross, hc1, hu0]
  have hy : Unit'.cross ⟨0, 0, 1⟩ ⟨0, 0, 0⟩ = (⟨0, 0, 0⟩, true) := by
    rw [Unit'.cross, hc0, hu0]
  refine ⟨?_, ?_⟩
  · rw [hmz, hu1]
    show (Unit'.cross ⟨0, 0, 1⟩ ⟨0, 0, 1⟩).2 = true
    rw [hx]
  · rw [LookAt]
    simp only [hmz, hu1, hx, hy]

/-- C9: the spec (implicitly, from the code) claims `RasterCoords` and
`PixelAt` are mutually inverse.  They are not: for a 2×2 film,
`RasterCoords(1) = (1, 0)` but `PixelAt(1, 0)` computes index
`x*Width + y = 2`, not `1` (the formula is transposed; the inverse of
`x = i % W, y = i / W` is `y*Width + x`). -/
theorem C9_pixelAt_transposed :
    RasterCoords 2 1 = (1, 0) ∧ PixelAtIdx 2 1 0 ≠ 1 := by
  constructor <;> decide

/-- C7: a ray from `(0,0,-5)` in direction `(0,0,1)` hits the unit sphere at
the origin at distance exactly `4` (the quadratic is `t² - 10t + 24`, with
discriminant `4` and roots `4` and `6`), and a ray from the same origin in
direction `(1,0,0)` misses (discriminant `-96 < 0`), signalled by the
negative sentinel distance `-1`. -/
theorem C7_sphere_intersection :
    Sphere.Intersect ⟨⟨0, 0, 0⟩, 1⟩ ⟨⟨0, 0, -5⟩, ⟨0, 0, 1⟩⟩ = 4 ∧
    Sphere.Intersect ⟨⟨0, 0, 0⟩, 1⟩ ⟨⟨0, 0, -5⟩, ⟨1, 0, 0⟩⟩ = -1 := by
  have s4 : Rat.sqrt 4 = 2 := by
    rw [show (4 : ℚ) = 2 * 2 by norm_num, ratSqrt_sq 2 (by norm_num)]
  have hq : SolveQuadratic 1 (-10) 24 = (4, 6, true) := by
    rw [SolveQuadratic]
    rw [show (-10 : ℚ) * (-10) - 4 * 1 * 24 = 4 by norm_num]
    rw [if_neg (by norm_num), if_neg (by norm_num), s4]
    rw [show Sign (-10) = -1 by rw [Sign]; norm_num]
    norm_num
  have hm : SolveQuadratic 1 0 24 = (-1, -1, false) := by
    rw [SolveQuadratic]
    rw [show (0 : ℚ) * 0 - 4 * 1 * 24 = -96 by norm_num]
    rw [if_pos (by norm_num)]
  constructor
  · show Sphere.Intersect ⟨⟨0, 0, 0⟩, 1⟩ ⟨⟨0, 0, -5⟩, ⟨0, 0, 1⟩⟩ = 4
    rw [Sphere.Intersect]
    simp only [Vec.minus, Vec.dot, Vec.lenSquared]
    rw [show (0 : ℚ) * 0 + 0 * 0 + 1 * 1 = 1 by norm_num]
    rw [show (2 : ℚ) * ((0 - 0) * 0 + (0 - 0) * 0 + (-5 - 0) * 1) = -10 by norm_num]
    rw [show ((0 : ℚ) - 0) * (0 - 0) + (0 - 0) * (0 - 0) + (-5 - 0) * (-5 - 0) - 1 * 1 = 24 by
      norm_num]
    rw [hq]
    norm_num
  · rw [Sphere.Intersect]
    simp only [Vec.minus, Vec.dot, Vec.lenSquared]
    rw [show (1 : ℚ) * 1 + 0 * 0 + 0 * 0 = 1 by norm_num]
    rw [show (2 : ℚ) * ((0 - 0) * 1 + (0 - 0) * 0 + (-5 - 0) * 0) = 0 by norm_num]
    rw [show ((0 : ℚ) - 0) * (0 - 0) + (0 - 0) * (0 - 0) + (-5 - 0) * (-5 - 0) - 1 * 1 = 24 by
      norm_num]
    rw [hm]
    norm_num

/-- C5 counterexample: the claim states `lerp(a, b, t) = a·(1−t) + b·t` holds
for both implementations, but `Sampled.Lerp` weights its receiver by `t`:
at `a = dStep`, `b = zeroSpec`, `t = 1`, component 0, it returns `1`, while
the claimed formula gives `0`. -/
theorem C5_sampled_lerp_counterexample :
    Sampled.Lerp dStep zeroSpec 1 0 ≠ dStep 0 * (1 - 1) + zeroSpec 0 * 1 := by
  norm_num [Sampled.Lerp, dStep, zeroSpec]

/-- C5 (amended): `Discrete.Lerp` computes the spec's
`lerp(a,b,t) = a·(1−t) + b·t` componentwise; `Sampled.Lerp` swaps the
weights, computing `a·t + b·(1−t)`, i.e. the spec combinator with its two
distribution arguments exchanged. -/
theorem C5_lerp_formulas (a b : Spec81) (t : ℚ) :
    Discrete.Lerp a b t = lerpSpec a b t ∧
    Sampled.Lerp a b t = lerpSpec b a t := by
  constructor <;> funext i <;>
    simp only [Discrete.Lerp, Sampled.Lerp, lerpSpec] <;> ring

/-- C6 counterexample: the claim states `Lookup(λ)` returns the nearest grid
sample at or *above* λ for both implementations.  For `Discrete.Lookup` at
`λ = 382` (between grid points 380 and 385) the nearest sample at or above is
index 1 (385nm), but the code returns the sample at index 0 (380nm):
`dStep` has value `1` at index 0 and `2` at index 1, and the lookup returns
`1`. -/
theorem C6_discrete_lookup_counterexample :
    Discrete.Lookup dStep 382 ≠ dStep 1 := by
  have h := discreteLookup_interior dStep 0 382 (by omega) (by norm_num)
    (by norm_num [gridWavelength]) (by norm_num [gridWavelength])
  rw [h]
  norm_num [dStep]

/-- C6 (amended): inside the grid, `Discrete.Lookup` returns the value at the
nearest grid sample at or *below* λ, while `Sampled.Lookup` returns the value
at the nearest grid sample at or above λ; each applies its own out-of-range
policy consistently at both ends (`Discrete` clamps to the edge samples,
`Sampled` returns zero). -/
theorem C6_lookup_step_function :
    (∀ (d : Spec81) (lam : ℚ), lam ≤ 380 → Discrete.Lookup d lam = d 0) ∧
    (∀ (d : Spec81) (lam : ℚ), 780 < lam → Discrete.Lookup d lam = d 80) ∧
    (∀ (d : Spec81) (k : ℕ) (lam : ℚ), k < 80 → 380 < lam →
      gridWavelength k ≤ lam → lam < gridWavelength (k + 1) →
      Discrete.Lookup d lam = d k) ∧
    (∀ (s : Spec81) (lam : ℚ), lam < 380 → Sampled.Lookup s lam = 0) ∧
    (∀ (s : Spec81) (lam : ℚ), 780 < lam → Sampled.Lookup s lam = 0) ∧
    (∀ (s : Spec81) (k : ℕ) (lam : ℚ), k < 80 →
      gridWavelength k < lam → lam ≤ gridWavelength (k + 1) →
      Sampled.Lookup s lam = s (k + 1)) :=
  ⟨discreteLookup_low, discreteLookup_high, discreteLookup_interior,
   sampledLookup_low, sampledLookup_high, sampledLookup_interior⟩

/-- Witness for `C6_lookup_step_function` at concrete wavelengths: 300 (below
range), 800 (above range) and 382 (interior, between grid points 380 and
385). -/
theorem C6_lookup_step_function_witness :
    Discrete.Lookup dStep 300 = dStep 0 ∧ Discrete.Lookup dStep 800 = dStep 80 ∧
    Discrete.Lookup dStep 382 = dStep 0 ∧ Sampled.Lookup dStep 300 = 0 ∧
    Sampled.Lookup dStep 800 = 0 ∧ Sampled.Lookup dStep 382 = dStep 1 :=
  ⟨C6_lookup_step_function.1 dStep 300 (by norm_num),
   C6_lookup_step_function.2.1 dStep 800 (by norm_num),
   C6_lookup_step_function.2.2.1 dStep 0 382 (by omega) (by norm_num)
     (by norm_num [gridWavelength]) (by norm_num [gridWavelength]),
   C6_lookup_step_function.2.2.2.1 dStep 300 (by norm_num),
   C6_lookup_step_function.2.2.2.2.1 dStep 800 (by norm_num),
   C6_lookup_step_function.2.2.2.2.2 dStep 0 382 (by omega)
     (by norm_num [gridWavelength]) (by norm_num [gridWavelength])⟩

/-- C10: `Film.Merge(offset, pixels)` sets each target pixel's color in
`[offset, offset + len(pixels))` to the tile pixel's color (replacing, not
adding to, the color already accumulated there), adds the tile pixel's
samples to the existing sample count, and leaves every pixel outside that
index range unchanged. -/
theorem C10_merge_frame_effect (film : List Pixel) (offset : ℕ)
    (pixels : List Pixel) (hlen : offset + pixels.length ≤ film.length) :
    (∀ k, k < pixels.length →
      (Film.merge film offset pixels)[offset + k]? =
        some ⟨(pixels.getD k defaultPixel).color,
          (film.getD (offset + k) defaultPixel).samples +
            (pixels.getD k defaultPixel).samples⟩) ∧
    (∀ i, i < offset ∨ offset + pixels.length ≤ i →
      (Film.merge film offset pixels)[i]? = film[i]?) :=
  ⟨fun k hk => merge_getElem?_touched film offset pixels k hk hlen,
   fun i hi => merge_getElem?_untouched film offset pixels i hi⟩

/-- Witness for `C10_merge_frame_effect`: a concrete 3-pixel film and a
1-pixel tile merged at offset 1. -/
theorem C10_merge_frame_effect_witness :
    (Film.merge filmW 1 tileW)[1 + 0]? =
      some ⟨(tileW.getD 0 defaultPixel).color,
        (filmW.getD (1 + 0) defaultPixel).samples +
          (tileW.getD 0 defaultPixel).samples⟩ ∧
    (Film.merge filmW 1 tileW)[0]? = filmW[0]? :=
  ⟨(C10_merge_frame_effect filmW 1 tileW (by norm_num [filmW, tileW])).1 0
      (by norm_num [tileW]),
   (C10_merge_frame_effect filmW 1 tileW (by norm_num [filmW, tileW])).2 0
      (Or.inl (by norm_num))⟩

/-- C8: for a fixed assignment `f` of per-pixel sample contributions, the
film produced by partitioning the pixel range `[0, n)` into tiles (any
positive tile size), rendering each tile into a private buffer, and merging
the completed tiles in any order (any permutation of the partition) is the
same film. -/
theorem C8_render_merge_order_independent (f : ℕ → Pixel) (n s1 s2 : ℕ)
    (hs1 : 0 < s1) (hs2 : 0 < s2) (tiles1 tiles2 : List Bin)
    (hp1 : tiles1.Perm (Partition n s1)) (hp2 : tiles2.Perm (Partition n s2)) :
    mergeTiles f (initFilm n) tiles1 = mergeTiles f (initFilm n) tiles2 := by
  apply List.ext_getElem?
  intro i
  rw [mergeTiles_partition_getElem? f n s1 hs1 tiles1 hp1 i,
    mergeTiles_partition_getElem? f n s2 hs2 tiles2 hp2 i]

/-- Witness for `C8_render_merge_order_independent`: a 3-pixel film rendered
with tile size 2 merged in reversed order equals the same film rendered as a
single size-3 tile. -/
theorem C8_render_merge_order_independent_witness :
    mergeTiles fW (initFilm 3) ((Partition 3 2).reverse) =
      mergeTiles fW (initFilm 3) (Partition 3 3) :=
  C8_render_merge_order_independent fW 3 2 3 (by norm_num) (by norm_num)
    ((Partition 3 2).reverse) (Partition 3 3)
    ((Partition 3 2).reverse_perm) (List.Perm.refl _)

end Gremlin
